import Mathlib

/-!
# Verification of the emulsion playback/caching core

Shallow embedding of `src/main.rs` of the emulsion image viewer together
with the playback/caching core it drives (Playback Manager, Directory
Index, Image Cache).  The modules `playback_manager`, `image_cache` and
`picture_panel` are declared in `main.rs` but their sources are not part
of the repository snapshot, so those components are modelled from the
specification; every such definition carries a doc comment starting with
`Modelled from the spec:`.  Everything taken from `main.rs` itself cites
its line numbers.
-/

set_option autoImplicit false

namespace Emulsion

/-- File paths are modelled as strings. -/
abbrev Path := String

/-- Decoded pixel data is opaque to the core; modelled as a natural number
identifying the decoded content. -/
abbrev PixelBuffer := Nat

/-- The three recoverable error kinds of the spec (§7): `NotFound`,
`Unreadable`, `DecodeError`. -/
inductive LoadError where
  | notFound
  | unreadable
  | decodeError
  deriving DecidableEq, Repr

/-- Modelled from the spec: the external collaborators of the core — the
filesystem (directory listing, §4.1) and the Image Decode Service (§6).
`listDir` returns the directory's files in the stable, deterministic order
required by §4.1, or fails with `unreadable`; `decode` is the pure
decode-to-pixels service; `parent` maps a file path to its directory. -/
structure FileSystem where
  listDir : Path → Except LoadError (List Path)
  decode : Path → Except LoadError PixelBuffer
  parent : Path → Path

/-! ## Directory Index (modelled from the spec, §4.1) -/

/-- Modelled from the spec: the Directory Index — an ordered sequence of
image file paths belonging to one directory, plus the position of the
current entry (§3). -/
structure DirectoryIndex where
  dir : Path
  entries : List Path
  position : Nat
  deriving DecidableEq, Repr

/-- Modelled from the spec: `next(index, position)` returns the following
position, or none at the last entry (no wraparound, §4.1). -/
def DirectoryIndex.next (idx : DirectoryIndex) : Option Nat :=
  if idx.position + 1 < idx.entries.length then some (idx.position + 1) else none

/-- Modelled from the spec: `previous(index, position)` returns the
preceding position, or none at the first entry (§4.1). -/
def DirectoryIndex.previous (idx : DirectoryIndex) : Option Nat :=
  if 0 < idx.position then some (idx.position - 1) else none

/-- Lowercased character sequence of a path, for case-insensitive
extension matching. -/
def lowerChars (p : Path) : List Char :=
  p.data.map Char.toLower

/-- Recognized image file extensions. -/
def imageExtensions : List String :=
  [".jpg", ".jpeg", ".png", ".gif", ".bmp", ".tga", ".webp"]

/-- Modelled from the spec: enumeration filters to recognized image
extensions only, case-insensitively (§4.1). -/
def isImageFile (p : Path) : Bool :=
  imageExtensions.any (fun ext => ext.data.isSuffixOf (lowerChars p))

/-- Position of a path in an entry list (first occurrence). -/
def positionOf (p : Path) : List Path → Option Nat
  | [] => none
  | q :: rest => if q = p then some 0 else (positionOf p rest).map (· + 1)

/-- Modelled from the spec: `index_for(path)` (§4.1) — list the parent
directory (failing with `Unreadable` when it cannot be listed), filter to
image files, and locate the path; fails with `NotFound` when the file is
not among the listed image files. -/
def indexFor (fs : FileSystem) (p : Path) : Except LoadError DirectoryIndex :=
  match fs.listDir (fs.parent p) with
  | .error e => .error e
  | .ok files =>
    let entries := files.filter isImageFile
    match positionOf p entries with
    | some i => .ok ⟨fs.parent p, entries, i⟩
    | none => .error .notFound

/-! ## Image Cache (modelled from the spec, §4.2) -/

/-- Modelled from the spec: a cache entry — decoded content plus a
monotonically increasing "last used" marker (§3). -/
structure CacheEntry where
  content : PixelBuffer
  lastUsed : Nat
  deriving DecidableEq, Repr

/-- Modelled from the spec: the Image Cache — entries keyed by path with
bounded capacity, plus the monotone clock feeding the recency markers. -/
structure ImageCache where
  capacity : Nat
  clock : Nat
  entries : List (Path × CacheEntry)
  deriving DecidableEq, Repr

/-- Lookup of a path in the cache's entry list (first match). -/
def lookupPath (p : Path) : List (Path × CacheEntry) → Option CacheEntry
  | [] => none
  | e :: rest => if e.1 = p then some e.2 else lookupPath p rest

/-- The empty cache with the given capacity. -/
def ImageCache.emptyCache (cap : Nat) : ImageCache :=
  ⟨cap, 0, []⟩

/-- Modelled from the spec: refresh the recency marker of `p`'s entry to
the current clock ("recency is updated on every successful `get_or_load`",
§4.2) and advance the clock. -/
def ImageCache.touch (c : ImageCache) (p : Path) : ImageCache :=
  ⟨c.capacity, c.clock + 1,
    c.entries.map (fun pe => if pe.1 = p then (pe.1, ⟨pe.2.content, c.clock⟩) else pe)⟩

/-- Remove (and return) the least-recently-used entry whose handle has no
outstanding external reference, according to the reference oracle `refd`;
`none` when every entry is externally referenced. -/
def popLruUnref (refd : Path → Bool) : List (Path × CacheEntry) →
    Option ((Path × CacheEntry) × List (Path × CacheEntry))
  | [] => none
  | pe :: rest =>
    match popLruUnref refd rest with
    | none => if refd pe.1 then none else some (pe, rest)
    | some (best, remaining) =>
      if refd pe.1 then some (best, pe :: remaining)
      else if pe.2.lastUsed ≤ best.2.lastUsed then some (pe, rest)
      else some (best, pe :: remaining)

/-- Modelled from the spec: eviction — remove the least-recently-used
entry with no outstanding external reference (§4.2); when every entry is
referenced, fall back to removing the overall least-recently-used entry,
which is safe because handles are reference-counted views whose content
survives eviction of the cache's own reference (§4.2 "Ownership"). -/
def ImageCache.evict (refd : Path → Bool) (c : ImageCache) : ImageCache :=
  match popLruUnref refd c.entries with
  | some vr => ⟨c.capacity, c.clock, vr.2⟩
  | none =>
    match popLruUnref (fun _ => false) c.entries with
    | some vr => ⟨c.capacity, c.clock, vr.2⟩
    | none => c

/-- Insert a freshly decoded entry, stamping it with the current clock. -/
def ImageCache.insertNew (c : ImageCache) (p : Path) (buf : PixelBuffer) : ImageCache :=
  ⟨c.capacity, c.clock + 1, (p, ⟨buf, c.clock⟩) :: c.entries⟩

/-- Modelled from the spec: `get_or_load(path)` (§4.2).  On hit, return the
cached handle and refresh its recency marker.  On miss, invoke the Decode
Service; on success insert a new entry, evicting first when at capacity;
on decode failure insert nothing and propagate the error. -/
def ImageCache.getOrLoad (decode : Path → Except LoadError PixelBuffer)
    (refd : Path → Bool) (c : ImageCache) (p : Path) :
    Except LoadError (PixelBuffer × ImageCache) :=
  match lookupPath p c.entries with
  | some e => .ok (e.content, c.touch p)
  | none =>
    match decode p with
    | .error err => .error err
    | .ok buf =>
      let c1 := if c.capacity ≤ c.entries.length then c.evict refd else c
      .ok (buf, c1.insertNew p buf)

/-- One cache operation: a `get_or_load` of a path under a given
external-reference oracle; a failed load leaves the cache unchanged. -/
def cacheStep (decode : Path → Except LoadError PixelBuffer)
    (c : ImageCache) (op : Path × (Path → Bool)) : ImageCache :=
  match ImageCache.getOrLoad decode op.2 c op.1 with
  | .ok pr => pr.2
  | .error _ => c

/-- Run a sequence of `get_or_load` operations. -/
def runCache (decode : Path → Except LoadError PixelBuffer)
    (ops : List (Path × (Path → Bool))) (c : ImageCache) : ImageCache :=
  ops.foldl (cacheStep decode) c

/-- Every cached content is what the Decode Service produces for its path
(§3: entries are immutable once inserted, created from a decode). -/
def decodeConsistent (decode : Path → Except LoadError PixelBuffer)
    (c : ImageCache) : Prop :=
  ∀ pe ∈ c.entries, decode pe.1 = .ok pe.2.content

/-! ## Playback Manager (modelled from the spec, §4.3) -/

/-- `LoadRequest` (spec §3): `None | LoadSpecific(path) | LoadNext |
LoadPrevious`, as in `playback_manager::LoadRequest` used by `main.rs`. -/
inductive LoadRequest where
  | none
  | loadSpecific (p : Path)
  | loadNext
  | loadPrevious
  deriving DecidableEq, Repr

/-- Whether a load request is `None`. -/
def LoadRequest.isNone : LoadRequest → Bool
  | .none => true
  | _ => false

/-- Modelled from the spec: the Playback Manager's state (§3
`PlaybackState`): active request, current Directory Index, currently
displayed path, published image handle, and the exclusively owned Image
Cache. -/
structure PlaybackManager where
  loadRequest : LoadRequest
  directory : Option DirectoryIndex
  imagePath : Option Path
  imageTexture : Option PixelBuffer
  cache : ImageCache
  deriving DecidableEq, Repr

/-- The fresh Playback Manager: no request, no directory, nothing shown. -/
def PlaybackManager.initial (cap : Nat) : PlaybackManager :=
  ⟨.none, Option.none, Option.none, Option.none, ImageCache.emptyCache cap⟩

/-- Modelled from the spec: `request_load(req)` overwrites the active
request — last call before the next tick wins, no queue (§4.3). -/
def PlaybackManager.requestLoad (pm : PlaybackManager) (r : LoadRequest) : PlaybackManager :=
  ⟨r, pm.directory, pm.imagePath, pm.imageTexture, pm.cache⟩

/-- Modelled from the spec: the idle predicate — the Playback Manager may
sleep iff it has no pending work, i.e. the active request is `None`
(§4.3 "Idle/sleep signal"). -/
def PlaybackManager.shouldSleep (pm : PlaybackManager) : Bool :=
  pm.loadRequest.isNone

/-- The external-reference oracle the Playback Manager hands the cache:
the displayed path's handle is the one with an outstanding reference. -/
def PlaybackManager.displayedRef (pm : PlaybackManager) : Path → Bool :=
  fun q => pm.imagePath = some q

/-- Rebuild the Directory Index for a specific path (§4.3 step 2). -/
def rebuildFor (fs : FileSystem) (p : Path) :
    Except LoadError (Option (Path × DirectoryIndex)) :=
  match indexFor fs p with
  | .error e => .error e
  | .ok idx => .ok (some (p, idx))

/-- Modelled from the spec: resolving the active request into a concrete
path (§4.3 update, steps 1–2).  `LoadSpecific p` reuses the existing index
when `p` lives in the indexed directory, rebuilding it otherwise;
`LoadNext`/`LoadPrevious` are looked up via the Directory Index relative
to the current position, a boundary (or a missing index) being a no-op
(`ok none`). -/
def resolveRequest (fs : FileSystem) (pm : PlaybackManager) :
    LoadRequest → Except LoadError (Option (Path × DirectoryIndex))
  | .none => .ok Option.none
  | .loadSpecific p =>
    match pm.directory with
    | some idx =>
      if idx.dir = fs.parent p then
        match positionOf p idx.entries with
        | some i => .ok (some (p, ⟨idx.dir, idx.entries, i⟩))
        | none => rebuildFor fs p
      else rebuildFor fs p
    | none => rebuildFor fs p
  | .loadNext =>
    match pm.directory with
    | none => .ok Option.none
    | some idx =>
      match idx.next with
      | none => .ok Option.none
      | some i => .ok (some (idx.entries.getD i "", ⟨idx.dir, idx.entries, i⟩))
  | .loadPrevious =>
    match pm.directory with
    | none => .ok Option.none
    | some idx =>
      match idx.previous with
      | none => .ok Option.none
      | some i => .ok (some (idx.entries.getD i "", ⟨idx.dir, idx.entries, i⟩))

/-- Modelled from the spec: the per-frame advance `update` (§4.3).  With no
active request it is a no-op.  Otherwise resolve the target path, ask the
cache, and on success set the resolved path as current and publish its
handle; on failure leave the previously displayed image unchanged and
surface the error to the caller.  The active request is cleared in every
case (§3 invariant).  Matches `playback_manager.update_image(..)` called
at `main.rs` line 204. -/
def PlaybackManager.updateImage (fs : FileSystem) (pm : PlaybackManager) :
    PlaybackManager × Option LoadError :=
  match pm.loadRequest with
  | .none => (pm, Option.none)
  | req =>
    match resolveRequest fs pm req with
    | .error e =>
      (⟨.none, pm.directory, pm.imagePath, pm.imageTexture, pm.cache⟩, some e)
    | .ok Option.none =>
      (⟨.none, pm.directory, pm.imagePath, pm.imageTexture, pm.cache⟩, Option.none)
    | .ok (some pidx) =>
      match ImageCache.getOrLoad fs.decode pm.displayedRef pm.cache pidx.1 with
      | .error e =>
        (⟨.none, some pidx.2, pm.imagePath, pm.imageTexture, pm.cache⟩, some e)
      | .ok bufc =>
        (⟨.none, some pidx.2, some pidx.1, some bufc.1, bufc.2⟩, Option.none)

/-- Modelled from the spec: the out-of-band Directory Index refresh from
disk after a load (§4.3 "Directory refresh after load").  It re-lists the
displayed path's directory and can therefore fail (e.g. `Unreadable`),
matching the fallible `Result` that `main.rs` line 212 unwraps. -/
def PlaybackManager.updateDirectory (fs : FileSystem) (pm : PlaybackManager) :
    Except LoadError PlaybackManager :=
  match pm.imagePath with
  | none => .ok pm
  | some p =>
    match indexFor fs p with
    | .error e => .error e
    | .ok idx => .ok ⟨pm.loadRequest, some idx, pm.imagePath, pm.imageTexture, pm.cache⟩

/-! ## The frame loop of `main.rs` (`Program::start_event_loop`, lines 147–227) -/

/-- The program state the frame loop iterates on: the Playback Manager
plus the picture panel's published image and its pending-work signal
(`picture_panel` is external; its `should_sleep` is an opaque flag). -/
structure ProgState where
  pm : PlaybackManager
  panelImage : Option PixelBuffer
  panelShouldSleep : Bool
  deriving DecidableEq, Repr

/-- What one frame-loop iteration produced, beyond the new state: the
error surfaced by `update_image`, whether the loop idle-slept, and how
many directory refreshes it performed. -/
structure TickResult where
  state : ProgState
  surfacedError : Option LoadError
  slept : Bool
  dirRefreshes : Nat
  deriving DecidableEq, Repr

/-- One iteration of the frame loop, `main.rs` lines 202–225: record
whether a load was requested (line 203), run `update_image` (line 204),
publish the manager's texture to the panel (lines 205–206), draw
(line 208), refresh the directory only when a load was requested —
`update_directory().unwrap()`, lines 211–213, a failure there being the
`unwrap` panic that terminates the program, modelled as `Except.error` —
and idle-sleep exactly when both components may sleep and no load was
requested (lines 215–225). -/
def tick (fs : FileSystem) (s : ProgState) : Except LoadError TickResult :=
  let loadRequested := !s.pm.loadRequest.isNone
  let pmErr := PlaybackManager.updateImage fs s.pm
  let panelImage := pmErr.1.imageTexture
  match (if loadRequested then PlaybackManager.updateDirectory fs pmErr.1 else .ok pmErr.1) with
  | .error e => .error e
  | .ok pm2 =>
    .ok ⟨⟨pm2, panelImage, s.panelShouldSleep⟩, pmErr.2,
      pm2.shouldSleep && s.panelShouldSleep && !loadRequested,
      if loadRequested then 1 else 0⟩

/-- Program startup, `main.rs` lines 117–126: with a command-line path
argument, issue one `LoadSpecific` request, consume it with
`update_image`, and hand the resulting texture to the panel; without one,
issue nothing.  The second component records the requests issued. -/
def startup (fs : FileSystem) (cap : Nat) (arg : Option Path) :
    ProgState × List LoadRequest :=
  match arg with
  | some p =>
    let pm1 := (PlaybackManager.initial cap).requestLoad (.loadSpecific p)
    let pm2 := (PlaybackManager.updateImage fs pm1).1
    (⟨pm2, pm2.imageTexture, true⟩, [LoadRequest.loadSpecific p])
  | none => (⟨PlaybackManager.initial cap, Option.none, true⟩, [])

/-! ## `OptionRefClone::ref_clone` (`main.rs` lines 59–70) -/

/-- Textures are identified by an id; `Rc<SrgbTexture2d>` handles are
modelled as ids into a reference-count heap. -/
abbrev TexId := Nat

/-- The reference counts of the texture heap: `counts t` is the number of
live `Rc` handles onto texture `t`. -/
structure RcHeap where
  counts : TexId → Nat

/-- `Rc::clone`: returns a handle to the same texture and increments its
reference count; the texture itself is not copied. -/
def rcClone (h : RcHeap) (t : TexId) : TexId × RcHeap :=
  (t, ⟨fun u => if u = t then h.counts u + 1 else h.counts u⟩)

/-- `OptionRefClone::ref_clone` for `Option<Rc<SrgbTexture2d>>`,
`main.rs` lines 63–70: `Some(ref image) => Some(image.clone())`,
`None => None`. -/
def refClone (o : Option TexId) (h : RcHeap) : Option TexId × RcHeap :=
  match o with
  | some image => ((rcClone h image).1, (rcClone h image).2)
  | none => (Option.none, h)

/-! ## `Program::draw` (`main.rs` lines 229–247) -/

/-- The rendering commands a draw call can issue. -/
inductive RenderCmd where
  | clearColor (r g b a : ℚ)
  | drawPicturePanel
  | drawBottomPanel
  | finish
  deriving DecidableEq, Repr

/-- `Program::get_bg_color`, `main.rs` lines 83–89. -/
def getBgColor (lightTheme : Bool) : ℚ × ℚ × ℚ × ℚ :=
  if lightTheme then (9/10, 9/10, 9/10, 0) else (1/50, 1/50, 1/50, 0)

/-- `Program::draw`, `main.rs` lines 229–247: when the window's inner size
is unavailable, or its width or height is not strictly positive, return
before issuing any rendering command; otherwise clear, draw the picture
panel, draw the bottom panel, and finish the frame.  The result is the
list of rendering commands issued. -/
def draw (innerSize : Option (ℚ × ℚ)) (lightTheme : Bool) : List RenderCmd :=
  match innerSize with
  | none => []
  | some wh =>
    if wh.1 ≤ 0 ∨ wh.2 ≤ 0 then []
    else
      [RenderCmd.clearColor (getBgColor lightTheme).1 (getBgColor lightTheme).2.1
        (getBgColor lightTheme).2.2.1 (getBgColor lightTheme).2.2.2,
       RenderCmd.drawPicturePanel, RenderCmd.drawBottomPanel, RenderCmd.finish]

/-! ## Concrete scenario inputs -/

/-- A two-image directory index on `/pics`, positioned at the first. -/
def picsIndex : DirectoryIndex :=
  ⟨"/pics", ["/pics/a.jpg", "/pics/b.jpg"], 0⟩

/-- A filesystem whose directory listing always fails (`Unreadable`) and
whose decoder always fails (`DecodeError`). -/
def brokenFs : FileSystem :=
  ⟨fun _ => .error .unreadable, fun _ => .error .decodeError, fun _ => "/pics"⟩

/-- A filesystem where `/pics` lists two images but decoding always
fails. -/
def decodeFailFs : FileSystem :=
  ⟨fun _ => .ok ["/pics/a.jpg", "/pics/b.jpg"], fun _ => .error .decodeError,
    fun _ => "/pics"⟩

/-- A healthy filesystem over `/pics`: listing succeeds and each path
decodes to its length. -/
def goodFs : FileSystem :=
  ⟨fun _ => .ok ["/pics/a.jpg", "/pics/b.jpg"], fun p => .ok p.length,
    fun _ => "/pics"⟩

/-- A program state displaying `/pics/a.jpg` with a pending `LoadNext`. -/
def pendingNextState : ProgState :=
  ⟨⟨.loadNext, some picsIndex, some "/pics/a.jpg", some 10,
    ⟨5, 3, [("/pics/a.jpg", ⟨10, 2⟩)]⟩⟩, some 10, true⟩

/-- The tick result of running `pendingNextState` against `decodeFailFs`:
the decode failure is surfaced, nothing displayed changes. -/
def decodeFailTickResult : TickResult :=
  ⟨⟨⟨.none, some picsIndex, some "/pics/a.jpg", some 10,
      ⟨5, 3, [("/pics/a.jpg", ⟨10, 2⟩)]⟩⟩, some 10, true⟩,
    some .decodeError, false, 1⟩

/-- The tick result of running `pendingNextState` against `goodFs`:
`/pics/b.jpg` is loaded, cached and displayed. -/
def goodTickResult : TickResult :=
  ⟨⟨⟨.none, some ⟨"/pics", ["/pics/a.jpg", "/pics/b.jpg"], 1⟩,
      some "/pics/b.jpg", some 11,
      ⟨5, 4, [("/pics/b.jpg", ⟨11, 3⟩), ("/pics/a.jpg", ⟨10, 2⟩)]⟩⟩, some 11, true⟩,
    Option.none, false, 1⟩

/-- A full two-entry cache of capacity two, for exercising eviction. -/
def fullCache : ImageCache :=
  ⟨2, 5, [("/pics/a.jpg", ⟨1, 3⟩), ("/pics/b.jpg", ⟨2, 4⟩)]⟩

/-- A decode service that decodes every path to the pixel buffer `7`. -/
def constDecode : Path → Except LoadError PixelBuffer :=
  fun _ => .ok 7

/-- The cache obtained by a first `get_or_load` of `/pics/a.jpg` on an
empty two-entry cache under `constDecode`. -/
def oneEntryCache : ImageCache :=
  ⟨2, 1, [("/pics/a.jpg", ⟨7, 0⟩)]⟩

/-! ## Helper lemmas -/

theorem popLruUnref_eq_none {refd : Path → Bool} {l : List (Path × CacheEntry)}
    (h : popLruUnref refd l = none) : ∀ pe ∈ l, refd pe.1 = true := by
  induction l with
  | nil => intro pe hpe; cases hpe
  | cons hd tl ih =>
    intro pe hpe
    rw [popLruUnref] at h
    rcases hrec : popLruUnref refd tl with _ | vr
    · rw [hrec] at h
      by_cases hr : refd hd.1
      · rcases List.mem_cons.mp hpe with heq | hpe
        · rw [heq]; exact hr
        · exact ih hrec pe hpe
      · simp [hr] at h
    · rw [hrec] at h
      by_cases hr : refd hd.1 <;> simp [hr] at h
      by_cases hle : hd.2.lastUsed ≤ vr.1.2.lastUsed <;> simp [hle] at h

theorem popLruUnref_perm {refd : Path → Bool} {l : List (Path × CacheEntry)}
    {v : Path × CacheEntry} {r : List (Path × CacheEntry)}
    (h : popLruUnref refd l = some (v, r)) : l.Perm (v :: r) := by
  induction l generalizing v r with
  | nil => simp [popLruUnref] at h
  | cons hd tl ih =>
    rw [popLruUnref] at h
    rcases hrec : popLruUnref refd tl with _ | ⟨best, remaining⟩
    · rw [hrec] at h
      by_cases hr : refd hd.1 <;> simp [hr] at h
      rw [← h.1, ← h.2]
    · rw [hrec] at h
      have hperm : tl.Perm (best :: remaining) := ih hrec
      by_cases hr : refd hd.1 <;> simp [hr] at h
      · rcases h with ⟨hv, hrem⟩
        subst hv; subst hrem
        exact (hperm.cons hd).trans (List.Perm.swap best hd remaining)
      · by_cases hle : hd.2.lastUsed ≤ best.2.lastUsed <;> simp [hle] at h
        · rw [← h.1, ← h.2]
        · rcases h with ⟨hv, hrem⟩
          subst hv; subst hrem
          exact (hperm.cons hd).trans (List.Perm.swap best hd remaining)

theorem popLruUnref_unref {refd : Path → Bool} {l : List (Path × CacheEntry)}
    {v : Path × CacheEntry} {r : List (Path × CacheEntry)}
    (h : popLruUnref refd l = some (v, r)) : refd v.1 = false := by
  induction l generalizing v r with
  | nil => simp [popLruUnref] at h
  | cons hd tl ih =>
    rw [popLruUnref] at h
    rcases hrec : popLruUnref refd tl with _ | ⟨best, remaining⟩
    · rw [hrec] at h
      by_cases hr : refd hd.1 <;> simp [hr] at h
      rw [← h.1]
      simpa using hr
    · rw [hrec] at h
      by_cases hr : refd hd.1 <;> simp [hr] at h
      · rw [← h.1]; exact ih hrec
      · by_cases hle : hd.2.lastUsed ≤ best.2.lastUsed <;> simp [hle] at h
        · rw [← h.1]; simpa using hr
        · rw [← h.1]; exact ih hrec

theorem popLruUnref_min {refd : Path → Bool} {l : List (Path × CacheEntry)}
    {v : Path × CacheEntry} {r : List (Path × CacheEntry)}
    (h : popLruUnref refd l = some (v, r)) :
    ∀ pe ∈ l, refd pe.1 = false → v.2.lastUsed ≤ pe.2.lastUsed := by
  induction l generalizing v r with
  | nil => simp [popLruUnref] at h
  | cons hd tl ih =>
    intro pe hpe hunref
    rw [popLruUnref] at h
    rcases hrec : popLruUnref refd tl with _ | ⟨best, remaining⟩
    · rw [hrec] at h
      by_cases hr : refd hd.1 <;> simp [hr] at h
      rcases List.mem_cons.mp hpe with heq | hpe
      · rw [← h.1, heq]
      · exact absurd (popLruUnref_eq_none hrec pe hpe) (by simp [hunref])
    · rw [hrec] at h
      by_cases hr : refd hd.1 <;> simp [hr] at h
      · rcases List.mem_cons.mp hpe with heq | hpe
        · rw [heq] at hunref
          exact absurd hunref (by simp [hr])
        · rw [← h.1]; exact ih hrec pe hpe hunref
      · by_cases hle : hd.2.lastUsed ≤ best.2.lastUsed <;> simp [hle] at h
        · rcases List.mem_cons.mp hpe with heq | hpe
          · rw [← h.1, heq]
          · exact le_trans (h.1 ▸ hle) (ih hrec pe hpe hunref)
        · rcases List.mem_cons.mp hpe with heq | hpe
          · rw [← h.1, heq]
            exact le_of_lt (lt_of_not_le hle)
          · rw [← h.1]; exact ih hrec pe hpe hunref

theorem popLruUnref_isSome {refd : Path → Bool} {l : List (Path × CacheEntry)}
    (h : ∃ pe ∈ l, refd pe.1 = false) :
    ∃ vr, popLruUnref refd l = some vr := by
  rcases hn : popLruUnref refd l with _ | vr
  · rcases h with ⟨pe, hpe, hunref⟩
    exact absurd (popLruUnref_eq_none hn pe hpe) (by simp [hunref])
  · exact ⟨vr, rfl⟩

theorem lookupPath_mem {p : Path} {l : List (Path × CacheEntry)} {e : CacheEntry}
    (h : lookupPath p l = some e) : (p, e) ∈ l := by
  induction l with
  | nil => simp [lookupPath] at h
  | cons hd tl ih =>
    rw [lookupPath] at h
    by_cases hp : hd.1 = p
    · simp [hp] at h
      exact List.mem_cons.mpr (Or.inl (by rw [← hp, ← h]))
    · simp [hp] at h
      exact List.mem_cons_of_mem hd (ih h)

theorem lookupPath_touchList {p : Path} {l : List (Path × CacheEntry)} {e : CacheEntry}
    (clk : Nat) (h : lookupPath p l = some e) :
    lookupPath p (l.map (fun pe => if pe.1 = p then (pe.1, ⟨pe.2.content, clk⟩) else pe))
      = some ⟨e.content, clk⟩ := by
  induction l with
  | nil => simp [lookupPath] at h
  | cons hd tl ih =>
    rw [lookupPath] at h
    by_cases hp : hd.1 = p
    · rw [if_pos hp, Option.some_inj] at h
      simp [lookupPath, hp, ← h]
    · rw [if_neg hp] at h
      simp [lookupPath, hp, ih h]

theorem evict_length (refd : Path → Bool) (c : ImageCache) (h : c.entries ≠ []) :
    (c.evict refd).entries.length + 1 = c.entries.length := by
  rw [ImageCache.evict]
  rcases h1 : popLruUnref refd c.entries with _ | vr
  · rcases h2 : popLruUnref (fun _ => false) c.entries with _ | vr'
    · rcases hl : c.entries with _ | ⟨hd, tl⟩
      · exact absurd hl h
      · have := popLruUnref_eq_none h2 hd (by rw [hl]; exact List.mem_cons_self hd tl)
        simp at this
    · have hperm := popLruUnref_perm h2
      simp [hperm.length_eq]
  · have hperm := popLruUnref_perm h1
    simp [hperm.length_eq]

theorem evict_capacity (refd : Path → Bool) (c : ImageCache) :
    (c.evict refd).capacity = c.capacity := by
  rw [ImageCache.evict]
  rcases popLruUnref refd c.entries with _ | vr
  · rcases popLruUnref (fun _ => false) c.entries with _ | vr' <;> rfl
  · rfl

theorem cacheStep_capacity (decode : Path → Except LoadError PixelBuffer)
    (c : ImageCache) (op : Path × (Path → Bool)) :
    (cacheStep decode c op).capacity = c.capacity := by
  rw [cacheStep, ImageCache.getOrLoad]
  rcases lookupPath op.1 c.entries with _ | e
  · rcases decode op.1 with e | buf
    · rfl
    · by_cases hc : c.capacity ≤ c.entries.length <;>
        simp [hc, ImageCache.insertNew, evict_capacity]
  · rfl

theorem cacheStep_length (decode : Path → Except LoadError PixelBuffer)
    (c : ImageCache) (op : Path × (Path → Bool)) (hcap : 1 ≤ c.capacity)
    (hlen : c.entries.length ≤ c.capacity) :
    (cacheStep decode c op).entries.length ≤ c.capacity := by
  rw [cacheStep, ImageCache.getOrLoad]
  rcases lookupPath op.1 c.entries with _ | e
  · rcases decode op.1 with e | buf
    · exact hlen
    · by_cases hc : c.capacity ≤ c.entries.length
      · have hne : c.entries ≠ [] := by
          intro hnil
          rw [hnil] at hc
          simp at hc
          omega
        have := evict_length op.2 c hne
        simp [hc, ImageCache.insertNew]
        omega
      · simp [hc, ImageCache.insertNew]
        omega
  · simpa [ImageCache.touch] using hlen

theorem runCache_inv (decode : Path → Except LoadError PixelBuffer)
    (ops : List (Path × (Path → Bool))) (c : ImageCache) (hcap : 1 ≤ c.capacity)
    (hlen : c.entries.length ≤ c.capacity) :
    (runCache decode ops c).capacity = c.capacity
    ∧ (runCache decode ops c).entries.length ≤ c.capacity := by
  induction ops generalizing c with
  | nil => exact ⟨rfl, hlen⟩
  | cons op rest ih =>
    have hstep := cacheStep_length decode c op hcap hlen
    have hc := cacheStep_capacity decode c op
    have := ih (cacheStep decode c op) (by rw [hc]; exact hcap) (by rw [hc]; exact hstep)
    rw [runCache, List.foldl_cons] at *
    exact ⟨by rw [this.1, hc], by rw [← hc]; exact this.2⟩

theorem cacheStep_decodeConsistent (decode : Path → Except LoadError PixelBuffer)
    (c : ImageCache) (op : Path × (Path → Bool)) (h : decodeConsistent decode c) :
    decodeConsistent decode (cacheStep decode c op) := by
  rw [cacheStep, ImageCache.getOrLoad]
  rcases lookupPath op.1 c.entries with _ | e
  · rcases hdec : decode op.1 with e | buf
    · exact h
    · by_cases hc : c.capacity ≤ c.entries.length <;> simp only [hc, if_pos, if_neg, ite_true, ite_false]
      · intro pe hpe
        rcases List.mem_cons.mp hpe with heq | hpe
        · rw [heq, hdec]
        · rw [ImageCache.evict] at hpe
          rcases h1 : popLruUnref op.2 c.entries with _ | vr
          · rw [h1] at hpe
            rcases h2 : popLruUnref (fun _ => false) c.entries with _ | vr'
            · rw [h2] at hpe
              exact h pe hpe
            · rw [h2] at hpe
              exact h pe ((popLruUnref_perm h2).mem_iff.mpr (List.mem_cons_of_mem vr'.1 hpe))
          · rw [h1] at hpe
            exact h pe ((popLruUnref_perm h1).mem_iff.mpr (List.mem_cons_of_mem vr.1 hpe))
      · intro pe hpe
        rcases List.mem_cons.mp hpe with heq | hpe
        · rw [heq, hdec]
        · exact h pe hpe
  · intro pe hpe
    rw [ImageCache.touch] at hpe
    rcases List.mem_map.mp hpe with ⟨qe, hqe, heq⟩
    by_cases hq : qe.1 = op.1
    · rw [← heq]
      simp only [hq, if_pos, ite_true]
      rw [← hq]
      exact h qe hqe
    · rw [← heq]
      simp only [hq, if_neg, ite_false]
      exact h qe hqe

theorem runCache_decodeConsistent (decode : Path → Except LoadError PixelBuffer)
    (ops : List (Path × (Path → Bool))) (c : ImageCache) (h : decodeConsistent decode c) :
    decodeConsistent decode (runCache decode ops c) := by
  induction ops generalizing c with
  | nil => exact h
  | cons op rest ih =>
    rw [runCache, List.foldl_cons]
    exact ih (cacheStep decode c op) (cacheStep_decodeConsistent decode c op h)

theorem getOrLoad_ok_lookup {decode : Path → Except LoadError PixelBuffer}
    {refd : Path → Bool} {c : ImageCache} {p : Path} {b : PixelBuffer} {c' : ImageCache}
    (h : ImageCache.getOrLoad decode refd c p = .ok (b, c')) :
    ∃ e', lookupPath p c'.entries = some e' ∧ e'.content = b := by
  rw [ImageCache.getOrLoad] at h
  rcases hl : lookupPath p c.entries with _ | e
  · rw [hl] at h
    rcases hdec : decode p with err | buf
    · rw [hdec] at h; cases h
    · rw [hdec] at h
      simp only [Except.ok.injEq, Prod.mk.injEq] at h
      rcases h with ⟨hb, hc'⟩
      refine ⟨⟨buf, (if c.capacity ≤ c.entries.length then c.evict refd else c).clock⟩, ?_, hb⟩
      rw [← hc']
      simp [ImageCache.insertNew, lookupPath]
  · rw [hl] at h
    simp only [Except.ok.injEq, Prod.mk.injEq] at h
    rcases h with ⟨hb, hc'⟩
    refine ⟨⟨e.content, c.clock⟩, ?_, hb⟩
    rw [← hc']
    simpa [ImageCache.touch] using lookupPath_touchList c.clock hl

theorem getOrLoad_ok_decode {decode : Path → Except LoadError PixelBuffer}
    {refd : Path → Bool} {c : ImageCache} {p : Path} {b : PixelBuffer} {c' : ImageCache}
    (hcons : decodeConsistent decode c)
    (h : ImageCache.getOrLoad decode refd c p = .ok (b, c')) :
    decode p = .ok b := by
  rw [ImageCache.getOrLoad] at h
  rcases hl : lookupPath p c.entries with _ | e
  · rw [hl] at h
    rcases hdec : decode p with err | buf
    · rw [hdec] at h; cases h
    · rw [hdec] at h
      simp only [Except.ok.injEq, Prod.mk.injEq] at h
      rw [h.1]
  · rw [hl] at h
    simp only [Except.ok.injEq, Prod.mk.injEq] at h
    rw [← h.1]
    exact hcons (p, e) (lookupPath_mem hl)

theorem updateImage_clears (fs : FileSystem) (pm : PlaybackManager) :
    (PlaybackManager.updateImage fs pm).1.loadRequest = .none := by
  rw [PlaybackManager.updateImage]
  cases hreq : pm.loadRequest with
  | none => exact hreq
  | loadSpecific p =>
    rcases hres : resolveRequest fs pm (.loadSpecific p) with e | _ | pidx
    · simp [hres]
    · simp [hres]
    · rcases hgol : ImageCache.getOrLoad fs.decode pm.displayedRef pm.cache pidx.1 with e | bufc <;>
        simp [hres, hgol]
  | loadNext =>
    rcases hres : resolveRequest fs pm .loadNext with e | _ | pidx
    · simp [hres]
    · simp [hres]
    · rcases hgol : ImageCache.getOrLoad fs.decode pm.displayedRef pm.cache pidx.1 with e | bufc <;>
        simp [hres, hgol]
  | loadPrevious =>
    rcases hres : resolveRequest fs pm .loadPrevious with e | _ | pidx
    · simp [hres]
    · simp [hres]
    · rcases hgol : ImageCache.getOrLoad fs.decode pm.displayedRef pm.cache pidx.1 with e | bufc <;>
        simp [hres, hgol]

theorem updateImage_fail_preserves (fs : FileSystem) (pm : PlaybackManager)
    (e : LoadError) (hfail : (PlaybackManager.updateImage fs pm).2 = some e) :
    (PlaybackManager.updateImage fs pm).1.imageTexture = pm.imageTexture
    ∧ (PlaybackManager.updateImage fs pm).1.cache = pm.cache
    ∧ (PlaybackManager.updateImage fs pm).1.imagePath = pm.imagePath := by
  rw [PlaybackManager.updateImage] at hfail ⊢
  cases hreq : pm.loadRequest with
  | none => exact ⟨rfl, rfl, rfl⟩
  | loadSpecific p =>
    rw [hreq] at hfail
    rcases hres : resolveRequest fs pm (.loadSpecific p) with err | _ | pidx
    · simp [hres]
    · simp [hres]
    · rcases hgol : ImageCache.getOrLoad fs.decode pm.displayedRef pm.cache pidx.1 with err | bufc
      · simp [hres, hgol]
      · simp [hres, hgol] at hfail
  | loadNext =>
    rw [hreq] at hfail
    rcases hres : resolveRequest fs pm .loadNext with err | _ | pidx
    · simp [hres]
    · simp [hres]
    · rcases hgol : ImageCache.getOrLoad fs.decode pm.displayedRef pm.cache pidx.1 with err | bufc
      · simp [hres, hgol]
      · simp [hres, hgol] at hfail
  | loadPrevious =>
    rw [hreq] at hfail
    rcases hres : resolveRequest fs pm .loadPrevious with err | _ | pidx
    · simp [hres]
    · simp [hres]
    · rcases hgol : ImageCache.getOrLoad fs.decode pm.displayedRef pm.cache pidx.1 with err | bufc
      · simp [hres, hgol]
      · simp [hres, hgol] at hfail

theorem updateDirectory_preserves (fs : FileSystem) (pm : PlaybackManager)
    (pm' : PlaybackManager) (h : PlaybackManager.updateDirectory fs pm = .ok pm') :
    pm'.imageTexture = pm.imageTexture ∧ pm'.cache = pm.cache
    ∧ pm'.loadRequest = pm.loadRequest ∧ pm'.imagePath = pm.imagePath := by
  rw [PlaybackManager.updateDirectory] at h
  rcases hip : pm.imagePath with _ | p
  · simp only [hip] at h
    cases h
    exact ⟨rfl, rfl, rfl, hip⟩
  · simp only [hip] at h
    rcases hidx : indexFor fs p with e | idx
    · simp only [hidx] at h
      exact Except.noConfusion h
    · simp only [hidx, Except.ok.injEq] at h
      rw [← h]
      exact ⟨rfl, rfl, rfl, rfl⟩

theorem tick_ok_elim (fs : FileSystem) (s : ProgState) (r : TickResult)
    (hok : tick fs s = .ok r) :
    ∃ pm2, (if !s.pm.loadRequest.isNone
              then PlaybackManager.updateDirectory fs (PlaybackManager.updateImage fs s.pm).1
              else .ok (PlaybackManager.updateImage fs s.pm).1) = .ok pm2
      ∧ r = ⟨⟨pm2, (PlaybackManager.updateImage fs s.pm).1.imageTexture, s.panelShouldSleep⟩,
             (PlaybackManager.updateImage fs s.pm).2,
             pm2.shouldSleep && s.panelShouldSleep && !(!s.pm.loadRequest.isNone),
             if !s.pm.loadRequest.isNone then 1 else 0⟩ := by
  rw [tick] at hok
  rcases hm : (if !s.pm.loadRequest.isNone
      then PlaybackManager.updateDirectory fs (PlaybackManager.updateImage fs s.pm).1
      else .ok (PlaybackManager.updateImage fs s.pm).1) with e | pm2
  · simp only [hm] at hok
    exact Except.noConfusion hok
  · simp only [hm, Except.ok.injEq] at hok
    exact ⟨pm2, rfl, hok.symm⟩

/-! ## Claim theorems -/

/-- C3: for every directory index and every valid position in it, applying
Next and then Previous returns to the original position; Next returns none
exactly at the last entry (no wraparound, a no-op) and Previous returns
none exactly at the first entry (a no-op). -/
theorem claim_next_previous_roundtrip (idx : DirectoryIndex)
    (hpos : idx.position < idx.entries.length) :
    (∀ i, idx.next = some i →
      DirectoryIndex.previous ⟨idx.dir, idx.entries, i⟩ = some idx.position)
    ∧ (idx.next = none ↔ idx.position + 1 = idx.entries.length)
    ∧ (idx.previous = none ↔ idx.position = 0) := by
  refine ⟨?_, ?_, ?_⟩
  · intro i hi
    rw [DirectoryIndex.next] at hi
    by_cases h : idx.position + 1 < idx.entries.length
    · rw [if_pos h, Option.some_inj] at hi
      rw [DirectoryIndex.previous]
      simp only [← hi]
      rw [if_pos (Nat.succ_pos _)]
      simp
    · rw [if_neg h] at hi; cases hi
  · rw [DirectoryIndex.next]
    by_cases h : idx.position + 1 < idx.entries.length
    · simp only [if_pos h]
      constructor
      · intro hc; cases hc
      · intro hc; omega
    · simp only [if_neg h]
      constructor
      · intro _; omega
      · intro _; trivial
  · rw [DirectoryIndex.previous]
    by_cases h : 0 < idx.position
    · simp only [if_pos h]
      constructor
      · intro hc; cases hc
      · intro hc; omega
    · simp only [if_neg h]
      constructor
      · intro _; omega
      · intro _; trivial

/-- Witness for C3 at the concrete index `picsIndex` (position 0 of 2). -/
theorem claim_next_previous_roundtrip_witness :
    DirectoryIndex.previous ⟨picsIndex.dir, picsIndex.entries, 1⟩ = some picsIndex.position
    ∧ (picsIndex.next = none ↔ picsIndex.position + 1 = picsIndex.entries.length)
    ∧ (picsIndex.previous = none ↔ picsIndex.position = 0) :=
  ⟨(claim_next_previous_roundtrip picsIndex (by decide)).1 1 (by decide),
   (claim_next_previous_roundtrip picsIndex (by decide)).2.1,
   (claim_next_previous_roundtrip picsIndex (by decide)).2.2⟩

/-- C9: `ref_clone` returns `None` iff the input is `None`; on `Some` it
returns a handle to the same underlying texture (shared, not copied) with
its reference count incremented and every other count unchanged, and it
leaves the original handle and heap otherwise untouched. -/
theorem claim_ref_clone (o : Option TexId) (h : RcHeap) :
    (refClone o h).1 = o
    ∧ ((refClone o h).1 = Option.none ↔ o = Option.none)
    ∧ (∀ t : TexId, ((refClone (some t) h).2).counts =
        fun u => if u = t then h.counts u + 1 else h.counts u)
    ∧ (refClone Option.none h).2 = h := by
  refine ⟨?_, ?_, fun t => rfl, rfl⟩
  · cases o <;> rfl
  · cases o <;> simp [refClone, rcClone]

/-- C10: when the window's inner size is unavailable, or its width or
height is not strictly positive, `draw` issues no rendering command. -/
theorem claim_draw_guard (sz : Option (ℚ × ℚ)) (theme : Bool)
    (h : sz = Option.none ∨ ∃ w ht, sz = some (w, ht) ∧ (w ≤ 0 ∨ ht ≤ 0)) :
    draw sz theme = [] := by
  rcases h with h | ⟨w, ht, hsz, hle⟩
  · rw [h]
    rfl
  · rw [hsz, draw]
    rw [if_pos]
    simpa using hle

/-- Witness for C10 at a zero-width window. -/
theorem claim_draw_guard_witness : draw (some (0, 5)) true = [] :=
  claim_draw_guard (some (0, 5)) true
    (Or.inr ⟨0, 5, rfl, Or.inl le_rfl⟩)

/-- C8: at startup, a command-line path argument issues exactly one
`LoadSpecific` request, which is consumed before the event loop starts
(the active request is `None` afterwards); without an argument no request
is issued. -/
theorem claim_startup_single_request (fs : FileSystem) (cap : Nat) (arg : Option Path) :
    (startup fs cap arg).2 =
      (match arg with
        | some p => [LoadRequest.loadSpecific p]
        | none => [])
    ∧ (startup fs cap arg).1.pm.loadRequest = .none := by
  cases arg with
  | none => exact ⟨rfl, rfl⟩
  | some p => exact ⟨rfl, updateImage_clears fs _⟩

/-- C7: on a successful frame-loop iteration, the Directory Index refresh
from disk is performed exactly once when a load request was active at the
start of the tick, and never on an idle tick. -/
theorem claim_directory_refresh_once (fs : FileSystem) (s : ProgState)
    (r : TickResult) (hok : tick fs s = .ok r) :
    r.dirRefreshes = (if s.pm.loadRequest.isNone then 0 else 1) := by
  rcases tick_ok_elim fs s r hok with ⟨pm2, _, hr⟩
  rw [hr]
  cases hb : s.pm.loadRequest.isNone <;> simp [hb]

/-- Witness for C7 at the concrete loaded tick. -/
theorem claim_directory_refresh_once_witness :
    goodTickResult.dirRefreshes
      = (if pendingNextState.pm.loadRequest.isNone then 0 else 1) :=
  claim_directory_refresh_once goodFs pendingNextState goodTickResult rfl

/-- C6: on a successful frame-loop iteration, the loop idle-sleeps exactly
when the playback manager and the picture panel both report they may sleep
and no load request was active at the start of the tick; in particular it
never sleeps on a tick in which a load request was pending. -/
theorem claim_tick_sleep (fs : FileSystem) (s : ProgState) (r : TickResult)
    (hok : tick fs s = .ok r) :
    r.slept = (r.state.pm.shouldSleep && r.state.panelShouldSleep
      && s.pm.loadRequest.isNone)
    ∧ (s.pm.loadRequest.isNone = false → r.slept = false) := by
  rcases tick_ok_elim fs s r hok with ⟨pm2, _, hr⟩
  subst hr
  constructor
  · simp
  · intro hfalse
    simp [hfalse]

/-- Witness for C6 at the concrete loaded tick. -/
theorem claim_tick_sleep_witness :
    (goodTickResult.slept = (goodTickResult.state.pm.shouldSleep
        && goodTickResult.state.panelShouldSleep
        && pendingNextState.pm.loadRequest.isNone))
    ∧ (pendingNextState.pm.loadRequest.isNone = false → goodTickResult.slept = false) :=
  claim_tick_sleep goodFs pendingNextState goodTickResult rfl

/-- C2: `request_load` is last-writer-wins — issuing `A` then `B` before a
tick is the same state as issuing only `B`, and runs through the next tick
exactly as issuing only `B` would (A has no observable effect); a
successful tick consumes the request, leaving the active request `None`. -/
theorem claim_request_last_writer_wins (fs : FileSystem) (s : ProgState)
    (pm : PlaybackManager) (a b : LoadRequest) (r : TickResult)
    (hok : tick fs s = .ok r) :
    (pm.requestLoad a).requestLoad b = pm.requestLoad b
    ∧ tick fs ⟨(s.pm.requestLoad a).requestLoad b, s.panelImage, s.panelShouldSleep⟩
        = tick fs ⟨s.pm.requestLoad b, s.panelImage, s.panelShouldSleep⟩
    ∧ r.state.pm.loadRequest = .none := by
  refine ⟨rfl, rfl, ?_⟩
  rcases tick_ok_elim fs s r hok with ⟨pm2, hm, hr⟩
  subst hr
  cases hb : (!s.pm.loadRequest.isNone) with
  | false =>
    simp only [hb, Bool.false_eq_true, if_false, Except.ok.injEq] at hm
    simp only [← hm]
    exact updateImage_clears fs s.pm
  | true =>
    simp only [hb, if_true] at hm
    simp only [(updateDirectory_preserves fs _ pm2 hm).2.2.1]
    exact updateImage_clears fs s.pm

/-- Witness for C2 at the concrete loaded tick. -/
theorem claim_request_last_writer_wins_witness :
    ((PlaybackManager.initial 2).requestLoad .loadNext).requestLoad .loadPrevious
      = (PlaybackManager.initial 2).requestLoad .loadPrevious
    ∧ tick goodFs ⟨(pendingNextState.pm.requestLoad .loadNext).requestLoad .loadPrevious,
        pendingNextState.panelImage, pendingNextState.panelShouldSleep⟩
      = tick goodFs ⟨pendingNextState.pm.requestLoad .loadPrevious,
        pendingNextState.panelImage, pendingNextState.panelShouldSleep⟩
    ∧ goodTickResult.state.pm.loadRequest = .none :=
  claim_request_last_writer_wins goodFs pendingNextState (PlaybackManager.initial 2)
    .loadNext .loadPrevious goodTickResult rfl

/-- C1 counterexample: a failing load request does not always leave the
program running.  With the directory unreadable and decoding failing, the
tick that processes the failing `LoadNext` surfaces the decode error, but
the post-load directory refresh fails and `main.rs` line 212 unwraps it:
the program terminates (the `Except.error` outcome of `tick`), refuting
"reports the error to the caller without terminating the program". -/
theorem claim_failed_load_counterexample :
    (PlaybackManager.updateImage brokenFs pendingNextState.pm).2
        = some LoadError.decodeError
    ∧ tick brokenFs pendingNextState = .error LoadError.unreadable :=
  ⟨rfl, rfl⟩

/-- C1 (amended): processing a load request whose resolution fails leaves
the previously displayed image, the displayed path and the cache contents
unchanged and surfaces the error to the caller — provided the tick
completes, i.e. the out-of-band directory refresh does not fail; when that
refresh fails, the `unwrap` at `main.rs` line 212 terminates the
program. -/
theorem claim_failed_load_preserves_display (fs : FileSystem) (s : ProgState)
    (e : LoadError) (r : TickResult)
    (hfail : (PlaybackManager.updateImage fs s.pm).2 = some e)
    (hok : tick fs s = .ok r) :
    r.surfacedError = some e
    ∧ r.state.pm.imageTexture = s.pm.imageTexture
    ∧ r.state.pm.cache = s.pm.cache
    ∧ r.state.pm.imagePath = s.pm.imagePath := by
  rcases tick_ok_elim fs s r hok with ⟨pm2, hm, hr⟩
  subst hr
  have hpres := updateImage_fail_preserves fs s.pm e hfail
  refine ⟨hfail, ?_⟩
  cases hb : (!s.pm.loadRequest.isNone) with
  | false =>
    simp only [hb, Bool.false_eq_true, if_false, Except.ok.injEq] at hm
    simp only [← hm]
    exact ⟨hpres.1, hpres.2.1, hpres.2.2⟩
  | true =>
    simp only [hb, if_true] at hm
    have hdir := updateDirectory_preserves fs _ pm2 hm
    exact ⟨hdir.1.trans hpres.1, hdir.2.1.trans hpres.2.1, hdir.2.2.2.trans hpres.2.2⟩

/-- Witness for the amended C1: the decode failure surfaces and nothing
displayed changes when the refresh succeeds. -/
theorem claim_failed_load_preserves_display_witness :
    decodeFailTickResult.surfacedError = some LoadError.decodeError
    ∧ decodeFailTickResult.state.pm.imageTexture = pendingNextState.pm.imageTexture
    ∧ decodeFailTickResult.state.pm.cache = pendingNextState.pm.cache
    ∧ decodeFailTickResult.state.pm.imagePath = pendingNextState.pm.imagePath :=
  claim_failed_load_preserves_display decodeFailFs pendingNextState
    LoadError.decodeError decodeFailTickResult rfl rfl

/-- C4: the cache never exceeds its configured capacity under any sequence
of `get_or_load` operations; when an insertion happens at capacity and
some entry is externally unreferenced, exactly the least-recently-used
unreferenced entry is evicted (the rest survive, permuted); and recency is
updated on every successful `get_or_load`, a hit included. -/
theorem claim_cache_capacity_lru (decode : Path → Except LoadError PixelBuffer)
    (cap : Nat) (hcap : 1 ≤ cap) :
    (∀ ops, (runCache decode ops (ImageCache.emptyCache cap)).entries.length ≤ cap)
    ∧ (∀ c refd p b, c.capacity = cap → lookupPath p c.entries = Option.none →
        decode p = .ok b → cap ≤ c.entries.length →
        (∃ pe ∈ c.entries, refd pe.1 = false) →
        ∃ v r, popLruUnref refd c.entries = some (v, r)
          ∧ refd v.1 = false
          ∧ v ∈ c.entries
          ∧ (∀ pe ∈ c.entries, refd pe.1 = false → v.2.lastUsed ≤ pe.2.lastUsed)
          ∧ c.entries.Perm (v :: r)
          ∧ ImageCache.getOrLoad decode refd c p
              = .ok (b, ⟨cap, c.clock + 1, (p, ⟨b, c.clock⟩) :: r⟩))
    ∧ (∀ c refd p e, lookupPath p c.entries = some e →
        ImageCache.getOrLoad decode refd c p = .ok (e.content, c.touch p)
          ∧ lookupPath p (c.touch p).entries = some ⟨e.content, c.clock⟩) := by
  refine ⟨?_, ?_, ?_⟩
  · intro ops
    exact (runCache_inv decode ops (ImageCache.emptyCache cap) hcap (Nat.zero_le cap)).2
  · intro c refd p b hcapc hmiss hdec hlen hex
    obtain ⟨vr, hvr⟩ := popLruUnref_isSome hex
    have hfull : c.capacity ≤ c.entries.length := by rw [hcapc]; exact hlen
    refine ⟨vr.1, vr.2, hvr, popLruUnref_unref hvr,
      (popLruUnref_perm hvr).mem_iff.mpr (List.mem_cons_self vr.1 vr.2),
      popLruUnref_min hvr, popLruUnref_perm hvr, ?_⟩
    simp only [ImageCache.getOrLoad, hmiss, hdec, hfull, if_true, ite_true]
    rw [ImageCache.evict, hvr]
    simp [ImageCache.insertNew, hcapc]
  · intro c refd p e hhit
    constructor
    · simp [ImageCache.getOrLoad, hhit]
    · simpa [ImageCache.touch] using lookupPath_touchList c.clock hhit

/-- Witness for C4: capacity bound after one operation; eviction of the
LRU entry of a full two-entry cache; recency refresh on a hit. -/
theorem claim_cache_capacity_lru_witness :
    (runCache constDecode [("/pics/a.jpg", fun _ => false)]
        (ImageCache.emptyCache 2)).entries.length ≤ 2
    ∧ (∃ v r, popLruUnref (fun _ => false) fullCache.entries = some (v, r)
        ∧ (fun _ : Path => false) v.1 = false
        ∧ v ∈ fullCache.entries
        ∧ (∀ pe ∈ fullCache.entries, (fun _ : Path => false) pe.1 = false →
            v.2.lastUsed ≤ pe.2.lastUsed)
        ∧ fullCache.entries.Perm (v :: r)
        ∧ ImageCache.getOrLoad constDecode (fun _ => false) fullCache "/pics/c.jpg"
            = .ok (7, ⟨2, fullCache.clock + 1,
                ("/pics/c.jpg", ⟨7, fullCache.clock⟩) :: r⟩))
    ∧ (ImageCache.getOrLoad constDecode (fun _ => false) fullCache "/pics/a.jpg"
          = .ok ((1 : PixelBuffer), fullCache.touch "/pics/a.jpg")
        ∧ lookupPath "/pics/a.jpg" (fullCache.touch "/pics/a.jpg").entries
            = some ⟨1, fullCache.clock⟩) :=
  ⟨(claim_cache_capacity_lru constDecode 2 (by decide)).1 [("/pics/a.jpg", fun _ => false)],
   (claim_cache_capacity_lru constDecode 2 (by decide)).2.1 fullCache (fun _ => false)
     "/pics/c.jpg" 7 rfl (by decide) rfl (by decide)
     ⟨("/pics/a.jpg", ⟨1, 3⟩), by decide, rfl⟩,
   (claim_cache_capacity_lru constDecode 2 (by decide)).2.2 fullCache (fun _ => false)
     "/pics/a.jpg" ⟨1, 3⟩ (by decide)⟩

/-- C5: a `get_or_load` and an immediately following `get_or_load` of the
same path return handles to identical decoded content, and that content is
exactly what a fresh decode of the file produces. -/
theorem claim_cache_hit_identical (decode : Path → Except LoadError PixelBuffer)
    (cap : Nat) (ops : List (Path × (Path → Bool))) (p : Path)
    (refd1 refd2 : Path → Bool) (b : PixelBuffer) (c' : ImageCache)
    (h : ImageCache.getOrLoad decode refd1
        (runCache decode ops (ImageCache.emptyCache cap)) p = .ok (b, c')) :
    decode p = .ok b
    ∧ ∃ c'', ImageCache.getOrLoad decode refd2 c' p = .ok (b, c'') := by
  have hcons : decodeConsistent decode (runCache decode ops (ImageCache.emptyCache cap)) :=
    runCache_decodeConsistent decode ops _ (by intro pe hpe; cases hpe)
  refine ⟨getOrLoad_ok_decode hcons h, ?_⟩
  obtain ⟨e', he', hb⟩ := getOrLoad_ok_lookup h
  exact ⟨c'.touch p, by simp [ImageCache.getOrLoad, he', hb]⟩

/-- Witness for C5: loading `/pics/a.jpg` into an empty cache and loading
it again returns the same decoded content, equal to a fresh decode. -/
theorem claim_cache_hit_identical_witness :
    constDecode "/pics/a.jpg" = .ok 7
    ∧ ∃ c'', ImageCache.getOrLoad constDecode (fun _ => false) oneEntryCache "/pics/a.jpg"
        = .ok (7, c'') :=
  claim_cache_hit_identical constDecode 2 [] "/pics/a.jpg"
    (fun _ => false) (fun _ => false) 7 oneEntryCache rfl

end Emulsion
